import Mathlib

/-!
Verification development for the channelserver repository: a shallow
embedding of the channel broker (server.rs), the remote-IP derivation and
Accept-Language parsing (meta.rs), the channel identifier codec
(channelid.rs), the WebSocket route (main.rs) and the session heartbeat
tick (session.rs), together with theorems settling the frozen claims.

Modelling conventions: machine integers are Nat with explicit reductions
modulo 2 to the width where overflow matters (msg_count is a u8, so its
increment is taken mod 256; data_exchanged is a usize, mod 2 to the 64);
HashMap registries are association lists in insertion order with
replace-on-insert semantics; fallible operations return Option or Except;
the panic reachable from ChannelID::from_str is an explicit constructor.
IP addresses are modelled as IPv4 (all quantities in the claims are IPv4).
-/

namespace Chsrv

/-! ### Association-list maps (HashMap model) -/

/-- Lookup in an association list, first match wins (HashMap::get). -/
def alistLookup {α β : Type} [DecidableEq α] : List (α × β) → α → Option β
  | [], _ => none
  | (k, v) :: t, k' => if k = k' then some v else alistLookup t k'

/-- Insert into an association list: replace the first entry with the same
key in place, otherwise append (HashMap::insert). -/
def alistInsert {α β : Type} [DecidableEq α] : List (α × β) → α → β → List (α × β)
  | [], k, v => [(k, v)]
  | (k', v') :: t, k, v =>
    if k' = k then (k, v) :: t else (k', v') :: alistInsert t k v

/-- Remove the entries with the given key (HashMap::remove; registries are
duplicate-free by construction). -/
def alistRemove {α β : Type} [DecidableEq α] : List (α × β) → α → List (α × β)
  | [], _ => []
  | (k', v) :: t, k =>
    if k' = k then alistRemove t k else (k', v) :: alistRemove t k

/-- The keys of an association list. -/
def alistKeys {α β : Type} (l : List (α × β)) : List α :=
  l.map Prod.fst

@[simp] theorem alistLookup_nil {α β : Type} [DecidableEq α] (k : α) :
    alistLookup ([] : List (α × β)) k = none := rfl

@[simp] theorem alistLookup_cons {α β : Type} [DecidableEq α] (k k' : α) (v : β)
    (t : List (α × β)) :
    alistLookup ((k, v) :: t) k' = if k = k' then some v else alistLookup t k' := rfl

theorem alistLookup_insert_self {α β : Type} [DecidableEq α] (l : List (α × β)) (k : α) (v : β) :
    alistLookup (alistInsert l k v) k = some v := by
  induction l with
  | nil => simp [alistInsert]
  | cons p t ih =>
    obtain ⟨k', v'⟩ := p
    by_cases h : k' = k
    · simp [alistInsert, h]
    · simp [alistInsert, h, ih]

theorem alistLookup_insert_ne {α β : Type} [DecidableEq α] (l : List (α × β)) (k k' : α) (v : β)
    (h : k ≠ k') : alistLookup (alistInsert l k v) k' = alistLookup l k' := by
  induction l with
  | nil => simp [alistInsert, h]
  | cons p t ih =>
    obtain ⟨a, b⟩ := p
    by_cases ha : a = k
    · subst ha
      simp [alistInsert, h]
    · simp [alistInsert, ha, ih]

theorem mem_alistInsert {α β : Type} [DecidableEq α] (l : List (α × β)) (k : α) (v : β)
    (p : α × β) (hp : p ∈ alistInsert l k v) : p = (k, v) ∨ p ∈ l := by
  induction l with
  | nil => simpa [alistInsert] using hp
  | cons q t ih =>
    obtain ⟨a, b⟩ := q
    by_cases ha : a = k
    · simp only [alistInsert, if_pos ha, List.mem_cons] at hp
      rcases hp with h | h
      · exact Or.inl h
      · exact Or.inr (List.mem_cons_of_mem _ h)
    · simp only [alistInsert, if_neg ha, List.mem_cons] at hp
      rcases hp with h | h
      · exact Or.inr (by simp [h])
      · rcases ih h with h' | h'
        · exact Or.inl h'
        · exact Or.inr (List.mem_cons_of_mem _ h')

theorem mem_alistRemove {α β : Type} [DecidableEq α] (l : List (α × β)) (k : α) (p : α × β) :
    p ∈ alistRemove l k ↔ p ∈ l ∧ p.1 ≠ k := by
  induction l with
  | nil => simp [alistRemove]
  | cons q t ih =>
    obtain ⟨a, b⟩ := q
    by_cases ha : a = k
    · subst ha
      rw [show alistRemove ((a, b) :: t) a = alistRemove t a from by simp [alistRemove]]
      rw [ih]
      simp only [List.mem_cons]
      constructor
      · rintro ⟨h1, h2⟩
        exact ⟨Or.inr h1, h2⟩
      · rintro ⟨h1 | h1, h2⟩
        · subst h1
          simp at h2
        · exact ⟨h1, h2⟩
    · rw [show alistRemove ((a, b) :: t) k = (a, b) :: alistRemove t k from by
        simp [alistRemove, ha]]
      simp only [List.mem_cons, ih]
      constructor
      · rintro (h | ⟨h1, h2⟩)
        · refine ⟨Or.inl h, ?_⟩
          rw [h]
          exact ha
        · exact ⟨Or.inr h1, h2⟩
      · rintro ⟨h1 | h1, h2⟩
        · exact Or.inl h1
        · exact Or.inr ⟨h1, h2⟩

@[simp] theorem alistKeys_nil {α β : Type} : alistKeys ([] : List (α × β)) = [] := rfl

@[simp] theorem alistKeys_cons {α β : Type} (p : α × β) (t : List (α × β)) :
    alistKeys (p :: t) = p.1 :: alistKeys t := rfl

theorem mem_alistKeys {α β : Type} (l : List (α × β)) (x : α) :
    x ∈ alistKeys l ↔ ∃ b, (x, b) ∈ l := by
  induction l with
  | nil => simp
  | cons q t ih =>
    obtain ⟨a, b⟩ := q
    simp only [alistKeys_cons, List.mem_cons, ih]
    constructor
    · rintro (h | ⟨c, hc⟩)
      · exact ⟨b, Or.inl (by rw [h])⟩
      · exact ⟨c, Or.inr hc⟩
    · rintro ⟨c, hc | hc⟩
      · exact Or.inl (congrArg Prod.fst hc)
      · exact Or.inr ⟨c, hc⟩

theorem alistLookup_eq_none_iff {α β : Type} [DecidableEq α] (l : List (α × β)) (k : α) :
    alistLookup l k = none ↔ k ∉ alistKeys l := by
  induction l with
  | nil => simp
  | cons p t ih =>
    obtain ⟨a, b⟩ := p
    by_cases h : a = k
    · subst h
      simp
    · have h' : k ≠ a := fun hh => h hh.symm
      simp [h, h', ih]

theorem alistLookup_some_mem {α β : Type} [DecidableEq α] (l : List (α × β)) (k : α) (v : β)
    (h : alistLookup l k = some v) : (k, v) ∈ l := by
  induction l with
  | nil => simp at h
  | cons p t ih =>
    obtain ⟨a, b⟩ := p
    by_cases ha : a = k
    · subst ha
      simp at h
      simp [h]
    · simp [ha] at h
      exact List.mem_cons_of_mem _ (ih h)

theorem alistKeys_insert_mem {α β : Type} [DecidableEq α] (l : List (α × β)) (k : α) (v : β)
    (h : k ∈ alistKeys l) : alistKeys (alistInsert l k v) = alistKeys l := by
  induction l with
  | nil => simp at h
  | cons p t ih =>
    obtain ⟨a, b⟩ := p
    by_cases ha : a = k
    · rw [show alistInsert ((a, b) :: t) k v = (k, v) :: t from by simp [alistInsert, ha]]
      simp [ha]
    · rw [show alistInsert ((a, b) :: t) k v = (a, b) :: alistInsert t k v from by
        simp [alistInsert, ha]]
      rw [alistKeys_cons, alistKeys_cons]
      rw [alistKeys_cons] at h
      rcases List.mem_cons.mp h with h' | h'
      · exact absurd h'.symm ha
      · rw [ih h']

theorem alistKeys_insert_not_mem {α β : Type} [DecidableEq α] (l : List (α × β)) (k : α)
    (v : β) (h : k ∉ alistKeys l) : alistKeys (alistInsert l k v) = alistKeys l ++ [k] := by
  induction l with
  | nil => simp [alistInsert]
  | cons p t ih =>
    obtain ⟨a, b⟩ := p
    rw [alistKeys_cons, List.mem_cons] at h
    push_neg at h
    have ha : a ≠ k := fun hh => h.1 hh.symm
    rw [show alistInsert ((a, b) :: t) k v = (a, b) :: alistInsert t k v from by
      simp [alistInsert, ha]]
    rw [alistKeys_cons, alistKeys_cons, ih h.2, List.cons_append]

theorem mem_keys_insert {α β : Type} [DecidableEq α] (l : List (α × β)) (k : α) (v : β)
    (x : α) : x ∈ alistKeys (alistInsert l k v) ↔ x ∈ alistKeys l ∨ x = k := by
  by_cases h : k ∈ alistKeys l
  · rw [alistKeys_insert_mem l k v h]
    constructor
    · exact Or.inl
    · rintro (hx | hx)
      · exact hx
      · rw [hx]
        exact h
  · rw [alistKeys_insert_not_mem l k v h]
    simp

theorem mem_alistInsert_nodup {α β : Type} [DecidableEq α] (l : List (α × β)) (k : α)
    (v : β) (p : α × β) (hn : (alistKeys l).Nodup) (hp : p ∈ alistInsert l k v) :
    p = (k, v) ∨ (p ∈ l ∧ p.1 ≠ k) := by
  induction l with
  | nil =>
    simp [alistInsert] at hp
    exact Or.inl hp
  | cons q t ih =>
    obtain ⟨a, b⟩ := q
    rw [alistKeys_cons, List.nodup_cons] at hn
    by_cases ha : a = k
    · subst ha
      rw [show alistInsert ((a, b) :: t) a v = (a, v) :: t from by simp [alistInsert]] at hp
      rcases List.mem_cons.mp hp with h1 | h1
      · exact Or.inl h1
      · refine Or.inr ⟨List.mem_cons_of_mem _ h1, fun hk => ?_⟩
        apply hn.1
        have hpk : p.1 ∈ alistKeys t := (mem_alistKeys t p.1).mpr ⟨p.2, by simpa using h1⟩
        rwa [hk] at hpk
    · rw [show alistInsert ((a, b) :: t) k v = (a, b) :: alistInsert t k v from by
        simp [alistInsert, ha]] at hp
      rcases List.mem_cons.mp hp with h1 | h1
      · refine Or.inr ⟨by rw [h1]; exact List.mem_cons_self _ _, by rw [h1]; exact ha⟩
      · rcases ih hn.2 h1 with h2 | h2
        · exact Or.inl h2
        · exact Or.inr ⟨List.mem_cons_of_mem _ h2.1, h2.2⟩

theorem mem_keys_remove {α β : Type} [DecidableEq α] (l : List (α × β)) (k x : α) :
    x ∈ alistKeys (alistRemove l k) ↔ x ∈ alistKeys l ∧ x ≠ k := by
  constructor
  · intro h
    obtain ⟨b, hb⟩ := (mem_alistKeys _ x).mp h
    rw [mem_alistRemove] at hb
    exact ⟨(mem_alistKeys _ x).mpr ⟨b, hb.1⟩, hb.2⟩
  · rintro ⟨h1, h2⟩
    obtain ⟨b, hb⟩ := (mem_alistKeys _ x).mp h1
    refine (mem_alistKeys _ x).mpr ⟨b, ?_⟩
    rw [mem_alistRemove]
    exact ⟨hb, h2⟩

theorem nodup_keys_remove {α β : Type} [DecidableEq α] (l : List (α × β)) (k : α)
    (hn : (alistKeys l).Nodup) : (alistKeys (alistRemove l k)).Nodup := by
  induction l with
  | nil => simp [alistRemove]
  | cons q t ih =>
    obtain ⟨a, b⟩ := q
    rw [alistKeys_cons, List.nodup_cons] at hn
    by_cases ha : a = k
    · rw [show alistRemove ((a, b) :: t) k = alistRemove t k from by simp [alistRemove, ha]]
      exact ih hn.2
    · rw [show alistRemove ((a, b) :: t) k = (a, b) :: alistRemove t k from by
        simp [alistRemove, ha]]
      rw [alistKeys_cons, List.nodup_cons]
      exact ⟨fun hmem => hn.1 ((mem_keys_remove t k a).mp hmem).1, ih hn.2⟩

/-! ### Kernel-reducible string helpers (Rust `split` over a single
character, `trim`, and decidability of Except results) -/

/-- Split a character list at every occurrence of `sep` (Rust
`str::split(char)`: empty pieces are kept, the empty input gives one empty
piece). -/
def splitChars (sep : Char) : List Char → List (List Char)
  | [] => [[]]
  | c :: t =>
    if c = sep then [] :: splitChars sep t
    else
      match splitChars sep t with
      | [] => [[c]]
      | h :: r => (c :: h) :: r

/-- Rust `str::split(sep)` on strings. -/
def splitStr (s : String) (sep : Char) : List String :=
  (splitChars sep s.data).map String.mk

/-- Rust `str::trim` (whitespace from both ends). -/
def trimStr (s : String) : String :=
  String.mk (((s.data.dropWhile Char.isWhitespace).reverse.dropWhile
    Char.isWhitespace).reverse)

/-- Lexicographic order on character lists; UTF-8 preserves codepoint
order, so this agrees with Rust's byte-wise String ordering. -/
def charListLt : List Char → List Char → Bool
  | [], [] => false
  | [], _ :: _ => true
  | _ :: _, [] => false
  | a :: s, b :: t =>
    if a.toNat < b.toNat then true
    else if b.toNat < a.toNat then false
    else charListLt s t

/-- Rust String `Ord` (byte-wise lexicographic). -/
def strLt (a b : String) : Bool :=
  charListLt a.data b.data

instance {ε α : Type} [DecidableEq ε] [DecidableEq α] : DecidableEq (Except ε α) := fun a b =>
  match a, b with
  | .error x, .error y =>
    if h : x = y then isTrue (by rw [h])
    else isFalse (by intro hh; injection hh; contradiction)
  | .error _, .ok _ => isFalse (by intro hh; exact Except.noConfusion hh)
  | .ok _, .error _ => isFalse (by intro hh; exact Except.noConfusion hh)
  | .ok x, .ok y =>
    if h : x = y then isTrue (by rw [h])
    else isFalse (by intro hh; injection hh; contradiction)

/-! ### Base64 URL-safe no-pad codec (channelid.rs uses the base64 crate's
URL_SAFE_NO_PAD engine: strict alphabet, no `=` accepted, nonzero trailing
bits rejected). -/

/-- Value of one character of the URL-safe base64 alphabet. -/
def sixbit (c : Char) : Option Nat :=
  if ('A') ≤ c ∧ c ≤ ('Z') then some (c.toNat - 65)
  else if ('a') ≤ c ∧ c ≤ ('z') then some (c.toNat - 97 + 26)
  else if ('0') ≤ c ∧ c ≤ ('9') then some (c.toNat - 48 + 52)
  else if c = ('-') then some 62
  else if c = ('_') then some 63
  else none

/-- Map every character through `sixbit`, failing on the first invalid one. -/
def sixbits : List Char → Option (List Nat)
  | [] => some []
  | c :: t =>
    match sixbit c, sixbits t with
    | some v, some vs => some (v :: vs)
    | _, _ => none

/-- Decode groups of 6-bit values into bytes; a trailing group of one value
is invalid, and the unused low bits of the final value must be zero. -/
def b64groups : List Nat → Option (List Nat)
  | [] => some []
  | [_] => none
  | [a, b] => if b % 16 = 0 then some [a * 4 + b / 16] else none
  | [a, b, c] =>
    if c % 4 = 0 then some [a * 4 + b / 16, (b % 16) * 16 + c / 4] else none
  | a :: b :: c :: d :: rest =>
    match b64groups rest with
    | some r => some ((a * 4 + b / 16) :: ((b % 16) * 16 + c / 4) :: ((c % 4) * 64 + d) :: r)
    | none => none

/-- base64 decode with the URL_SAFE_NO_PAD engine. -/
def b64decode (s : String) : Option (List Nat) :=
  match sixbits s.data with
  | some vs => b64groups vs
  | none => none

/-- One character of the URL-safe alphabet from a 6-bit value. -/
def b64char (n : Nat) : Char :=
  if n < 26 then Char.ofNat (65 + n)
  else if n < 52 then Char.ofNat (97 + n - 26)
  else if n < 62 then Char.ofNat (48 + n - 52)
  else if n = 62 then ('-')
  else ('_')

/-- base64 encode with the URL_SAFE_NO_PAD engine. -/
def b64encodeBytes : List Nat → List Char
  | [] => []
  | [a] => [b64char (a / 4), b64char (a % 4 * 16)]
  | [a, b] => [b64char (a / 4), b64char (a % 4 * 16 + b / 16), b64char (b % 16 * 4)]
  | a :: b :: c :: rest =>
    b64char (a / 4) :: b64char (a % 4 * 16 + b / 16) ::
      b64char (b % 16 * 4 + c / 64) :: b64char (c % 64) :: b64encodeBytes rest

/-! ### ChannelID (channelid.rs) -/

/-- Opaque 16-byte channel identifier (the `value: [u8; 16]` field). -/
structure ChannelID where
  value : List Nat
deriving DecidableEq

/-- `ChannelID::as_string`: URL-safe base64, no padding. -/
def as_string (c : ChannelID) : String :=
  String.mk (b64encodeBytes c.value)

/-- Result of `ChannelID::from_str`, with the reachable panic explicit. -/
inductive FromStrResult where
  | ok (id : ChannelID)
  | err
  | panicked
deriving DecidableEq

/-- Drop all trailing `=` characters (str::trim_end_matches). -/
def trimEndEq (s : String) : String :=
  String.mk (s.data.reverse.dropWhile (fun c => c = ('=')) ).reverse

/-- `ChannelID::from_str`: base64-decode the input after stripping trailing
padding, then `array.copy_from_slice(&bytes[..16])` — which panics when the
decode produced fewer than 16 bytes, and silently keeps only the first 16
bytes when it produced more. -/
def from_str (s : String) : FromStrResult :=
  match b64decode (trimEndEq s) with
  | none => .err
  | some bytes =>
    if bytes.length < 16 then .panicked
    else .ok ⟨bytes.take 16⟩

/-! ### JSON serialization (serde_json with the default BTreeMap-backed
`Map`, so object keys come out sorted; struct fields of `SenderData` are
serialized through `Value` and therefore also sorted). -/

/-- Lowercase hex digit. -/
def hexDigit (n : Nat) : Char :=
  if n < 10 then Char.ofNat (48 + n) else Char.ofNat (97 + n - 10)

/-- serde_json string escaping: quote, backslash, the short control escapes,
and \u00XX for the remaining control characters. -/
def jsonEscapeChar (c : Char) : String :=
  if c = ('"') then "\\\""
  else if c = ('\\') then "\\\\"
  else if c.toNat = 8 then "\\b"
  else if c.toNat = 9 then "\\t"
  else if c.toNat = 10 then "\\n"
  else if c.toNat = 12 then "\\f"
  else if c.toNat = 13 then "\\r"
  else if c.toNat < 32 then
    String.mk [('\\'), ('u'), ('0'), ('0'), hexDigit (c.toNat / 16), hexDigit (c.toNat % 16)]
  else String.mk [c]

/-- A JSON string literal. -/
def jsonString (s : String) : String :=
  "\"" ++ String.join (s.data.map jsonEscapeChar) ++ "\""

/-- Sender metadata (meta.rs SenderData); all fields optional, skipped when
absent. -/
structure SenderData where
  ua : Option String := none
  remote : Option String := none
  city : Option String := none
  region : Option String := none
  country : Option String := none
deriving DecidableEq

/-- One optional JSON object field. -/
def jsonField (k : String) (v : Option String) : List String :=
  match v with
  | none => []
  | some s => [jsonString k ++ ":" ++ jsonString s]

/-- SenderData as a JSON object; keys that are present appear in sorted
order (city, country, region, remote, ua) because serde_json's Map is a
BTreeMap. -/
def senderJson (d : SenderData) : String :=
  "\x7b" ++
    String.intercalate ","
      (jsonField ("city") d.city ++ jsonField ("country") d.country ++
        jsonField ("region") d.region ++ jsonField ("remote") d.remote ++
        jsonField ("ua") d.ua) ++ "\x7d"

/-- The relayed payload `json!({"message": msg, "sender": sender})`
(keys sorted: message before sender). -/
def wrapMessage (m : String) (sender : SenderData) : String :=
  "\x7b\"message\":" ++ jsonString m ++ ",\"sender\":" ++ senderJson sender ++ "\x7d"

/-- The first control frame `json!({"link": ..., "channelid": ...})`
(keys sorted: channelid before link). -/
def linkFrame (c : ChannelID) : String :=
  "\x7b\"channelid\":" ++ jsonString (as_string c) ++ ",\"link\":" ++
    jsonString ("/v1/ws/" ++ as_string c) ++ "\x7d"

/-- Rust `str::len`: the UTF-8 byte length. -/
def utf8Size (c : Char) : Nat :=
  if c.toNat < 0x80 then 1
  else if c.toNat < 0x800 then 2
  else if c.toNat < 0x10000 then 3
  else 4

/-- Byte length of a string (String::len in Rust). -/
def utf8Len (s : String) : Nat :=
  (s.data.map utf8Size).sum

/-! ### The channel broker (server.rs) -/

/-- The configuration fields the broker consults (settings.rs). -/
structure Settings where
  max_channel_connections : Nat
  conn_lifespan : Nat
  client_timeout : Nat
  max_exchanges : Nat
  max_data : Nat
deriving DecidableEq

/-- Compiled-in defaults of settings.rs. -/
def settingsDefault : Settings :=
  { max_channel_connections := 3, conn_lifespan := 300, client_timeout := 30,
    max_exchanges := 10, max_data := 0 }

/-- Per-member record (struct Channel in server.rs); msg_count is a u8 and
data_exchanged a usize. -/
structure Channel where
  session_id : Nat
  started : Nat
  msg_count : Nat
  data_exchanged : Nat
  remote : Option String
deriving DecidableEq

inductive MessageType where
  | Text
  | Terminate
deriving DecidableEq

/-- Frame pushed to a session's delivery handle. -/
abbrev TextMessage := MessageType × String

inductive DisconnectReason where
  | None
  | ConnectionError
  | Timeout
deriving DecidableEq

inductive HandlerErrorKind where
  | XSDataErr (remote : String)
  | XSMessageErr (remote : String)
  | BadRemoteAddrError (msg : String)
deriving DecidableEq

/-- The out-of-band shutdown byte `EOL`. -/
def EOL : String := "\x04"

/-- Broker state: the two registries plus event logs for emitted metrics
and frames pushed through delivery handles (`do_send`). Delivery handles
(`Recipient<TextMessage>`) are identified by a Nat. -/
structure BrokerState where
  channels : List (ChannelID × List (Nat × Channel))
  sessions : List (Nat × Nat)
  metrics : List String
  outbox : List (Nat × TextMessage)

/-- The broker's empty initial state. -/
def emptyBroker : BrokerState :=
  { channels := [], sessions := [], metrics := [], outbox := [] }

/-- `reconnect_check`: does the joining remote IP match the remote of an
existing member of the group? -/
def reconnect_check (group : List (Nat × Channel)) (new_remote : Option String) : Bool :=
  match new_remote with
  | none => false
  | some req_ip =>
    group.any (fun p =>
      match p.2.remote with
      | some loc_ip => req_ip = loc_ip
      | none => false)

/-- A Connect request (server.rs struct Connect). -/
structure ConnectArgs where
  addr : Nat
  channel : ChannelID
  remote : Option String
  initial_connect : Bool

/-- Second half of the Connect handler, entered once the channel entry
exists (or existed): capacity check, reconnect check, insertion, and the
link frame push. -/
def connectStage2 (st : Settings) (s : BrokerState) (msg : ConnectArgs)
    (session_id : Nat) (new_session : Channel) : Nat × BrokerState :=
  match alistLookup s.channels msg.channel with
  | none => (0, s)
  | some group =>
    if group.length ≥ st.max_channel_connections then
      (0, { s with sessions := alistRemove s.sessions session_id,
                   metrics := s.metrics ++ ["conn.max.conn"] })
    else if group.length > 2 ∧ ¬ reconnect_check group msg.remote then
      (0, s)
    else
      let group := alistInsert group session_id new_session
      let s := { s with channels := alistInsert s.channels msg.channel group }
      let jpath := linkFrame msg.channel
      (session_id, { s with outbox := s.outbox ++ [(msg.addr, (MessageType.Text, jpath))] })

/-- The Connect handler. `rng` is the value drawn by `self.rng.gen::<usize>()`
for this request: the handler inserts the new delivery handle into the
sessions registry first, then rejects unknown channels unless
`initial_connect`, creates the channel entry when allowed, and defers to
`connectStage2`. -/
def connect (st : Settings) (s : BrokerState) (msg : ConnectArgs) (now rng : Nat) :
    Nat × BrokerState :=
  let session_id := rng
  let new_session : Channel :=
    { session_id := session_id, started := now, msg_count := 0, data_exchanged := 0,
      remote := msg.remote }
  let s := { s with sessions := alistInsert s.sessions session_id msg.addr }
  match alistLookup s.channels msg.channel with
  | none =>
    if ¬ msg.initial_connect then (0, s)
    else
      let s := { s with channels := alistInsert s.channels msg.channel [] }
      connectStage2 st s msg session_id new_session
  | some _ => connectStage2 st s msg session_id new_session

/-- The loop body of `ChannelServer::shutdown`: push a Terminate through
the member's delivery handle when it is still registered, then drop the
member from the sessions registry. -/
def terminateStep (acc : BrokerState) (p : Nat × Channel) : BrokerState :=
  let acc :=
    match alistLookup acc.sessions p.1 with
    | some addr =>
      { acc with outbox := acc.outbox ++ [(addr, (MessageType.Terminate, EOL))] }
    | none => acc
  { acc with sessions := alistRemove acc.sessions p.1 }

/-- `ChannelServer::shutdown`: push a Terminate to every member, drop every
member from the sessions registry, drop the channel. -/
def shutdown (s : BrokerState) (channel : ChannelID) : BrokerState :=
  let s :=
    match alistLookup s.channels channel with
    | some participants => participants.foldl terminateStep s
    | none => s
  { s with channels := alistRemove s.channels channel }

/-- The first loop of `ChannelServer::disconnect`: push a Terminate
through the departing member's delivery handle when it is a member and
still registered (only the outbox changes). -/
def disconnectNotify (s : BrokerState) (channel : ChannelID) (id : Nat) : BrokerState :=
  match alistLookup s.channels channel with
  | some participants =>
    if participants.any (fun p => p.1 = id) then
      match alistLookup s.sessions id with
      | some addr =>
        { s with outbox := s.outbox ++ [(addr, (MessageType.Terminate, EOL))] }
      | none => s
    else s
  | none => s

/-- `ChannelServer::disconnect`: notify the departing member, remove it from
the channel (but not from the sessions registry), and shut the channel down
when it became empty. -/
def disconnect (s : BrokerState) (channel : ChannelID) (id : Nat) : BrokerState :=
  let s := disconnectNotify s channel id
  match alistLookup s.channels channel with
  | some participants =>
    let participants := alistRemove participants id
    let s := { s with channels := alistInsert s.channels channel participants }
    if participants.isEmpty then shutdown s channel else s
  | none => s

/-- The body of `send_message`'s loop over `participants.values_mut()`:
returns the updated participants (mutation-in-place up to the abort point),
the metrics and frames emitted, and the error that aborted the walk, if
any. For each member the byte quota is checked against the pre-update
running total and the just-arrived length, then both counters are updated
(u8 and usize arithmetic), then the message quota is checked against the
updated count, then the frame is delivered unless the member is the
sender. -/
def sendLoop (st : Settings) (sessions : List (Nat × Nat)) (message : String)
    (skip_id : Nat) :
    List (Nat × Channel) →
      List (Nat × Channel) × List String × List (Nat × TextMessage) × Option HandlerErrorKind
  | [] => ([], [], [], none)
  | (pid, party) :: rest =>
    let max_data := st.max_data
    let msg_len := utf8Len message
    if max_data > 0 ∧ (party.data_exchanged > max_data ∨ msg_len > max_data) then
      ((pid, party) :: rest, ["conn.max.data"], [],
        some (.XSDataErr (party.remote.getD "")))
    else
      let party :=
        { party with
            data_exchanged := (party.data_exchanged + msg_len) % (2 ^ 64),
            msg_count := (party.msg_count + 1) % 256 }
      if st.max_exchanges > 0 ∧ party.msg_count > st.max_exchanges then
        ((pid, party) :: rest, ["conn.max.msg"], [],
          some (.XSMessageErr (party.remote.getD "")))
      else
        let sends :=
          if party.session_id ≠ skip_id then
            match alistLookup sessions party.session_id with
            | some addr => [(addr, (MessageType.Text, message))]
            | none => []
          else []
        let (rest', ms, outs, err) := sendLoop st sessions message skip_id rest
        ((pid, party) :: rest', ms, sends ++ outs, err)

/-- `ChannelServer::send_message`: walk the members of the channel,
recording the partially-updated group, the emitted metrics and frames, and
the quota error if one aborted the walk. -/
def send_message (st : Settings) (s : BrokerState) (channel : ChannelID)
    (message : String) (skip_id : Nat) : Option HandlerErrorKind × BrokerState :=
  match alistLookup s.channels channel with
  | none => (none, s)
  | some participants =>
    let (group, ms, outs, err) := sendLoop st s.sessions message skip_id participants
    (err,
      { s with channels := alistInsert s.channels channel group,
               metrics := s.metrics ++ ms,
               outbox := s.outbox ++ outs })

/-- A ClientMessage request. -/
structure ClientMsgArgs where
  id : Nat
  message_type : MessageType
  msg : String
  channel : ChannelID
  sender : SenderData

/-- The ClientMessage handler: Terminate disconnects the single member;
Text wraps the payload and fans it out, shutting the whole channel down
when `send_message` reports a quota error. -/
def clientMessage (st : Settings) (s : BrokerState) (m : ClientMsgArgs) : BrokerState :=
  match m.message_type with
  | .Terminate => disconnect s m.channel m.id
  | .Text =>
    let wrapped := wrapMessage m.msg m.sender
    let (err, s') := send_message st s m.channel wrapped m.id
    match err with
    | some _ => shutdown s' m.channel
    | none => s'

/-- One broker mailbox request. -/
inductive Op where
  | connectOp (args : ConnectArgs) (now rng : Nat)
  | disconnectOp (channel : ChannelID) (id : Nat)
  | clientMsg (m : ClientMsgArgs)

/-- Process one request (the broker is single-writer: requests are applied
sequentially). -/
def applyOp (st : Settings) (s : BrokerState) : Op → BrokerState
  | .connectOp args now rng => (connect st s args now rng).2
  | .disconnectOp c i => disconnect s c i
  | .clientMsg m => clientMessage st s m

/-- Run a sequence of broker requests. -/
def runOps (st : Settings) (s : BrokerState) (ops : List Op) : BrokerState :=
  ops.foldl (applyOp st) s

/-- All member session ids across all channels. -/
def memberIds (s : BrokerState) : List Nat :=
  (s.channels.map (fun c => alistKeys c.2)).flatten

/-- The session ids present in the sessions registry. -/
def sessionKeys (s : BrokerState) : List Nat :=
  alistKeys s.sessions

/-! ### Remote-IP derivation (meta.rs) with IPv4 addresses -/

/-- An IPv4 address as four octets. -/
structure Ipv4 where
  a : Nat
  b : Nat
  c : Nat
  d : Nat
deriving DecidableEq

/-- The 32-bit value of an address. -/
def ipToNat (ip : Ipv4) : Nat :=
  ((ip.a * 256 + ip.b) * 256 + ip.c) * 256 + ip.d

/-- `IpAddr::is_loopback` for IPv4: the 127.0.0.0/8 block. -/
def isLoopback (ip : Ipv4) : Bool :=
  ip.a = 127

/-- Display form `a.b.c.d`. -/
def ipToString (ip : Ipv4) : String :=
  toString ip.a ++ "." ++ toString ip.b ++ "." ++ toString ip.c ++ "." ++ toString ip.d

/-- A CIDR network (the ipnet crate's Ipv4Net). -/
structure IpNet where
  addr : Ipv4
  prefix_len : Nat
deriving DecidableEq

/-- `IpNet::contains`: the address masked to the prefix equals the network
address masked to the prefix. -/
def netContains (net : IpNet) (ip : Ipv4) : Bool :=
  ipToNat ip / 2 ^ (32 - net.prefix_len) = ipToNat net.addr / 2 ^ (32 - net.prefix_len)

/-- `is_trusted_proxy`: membership in any network of the allow list. -/
def is_trusted_proxy (proxy_list : List IpNet) (host : Ipv4) : Bool :=
  proxy_list.any (fun range => netContains range host)

/-- Parse one decimal octet the way Rust's Ipv4Addr parser does: digits
only, no leading zero, value at most 255. -/
def parseOctet (s : String) : Option Nat :=
  let cs := s.data
  if cs.isEmpty then none
  else if ¬ cs.all Char.isDigit then none
  else if cs.length > 1 ∧ cs.headD ('x') = ('0') then none
  else
    let v := cs.foldl (fun a c => a * 10 + (c.toNat - 48)) 0
    if v ≤ 255 then some v else none

/-- `str::parse::<IpAddr>` restricted to IPv4 dotted-quad form. -/
def parseIpv4 (s : String) : Option Ipv4 :=
  match (splitStr s ('.')).map parseOctet with
  | [some a, some b, some c, some d] => some ⟨a, b, c, d⟩
  | _ => none

/-- A peer socket address (only the IP is ever read). -/
structure SocketAddr where
  ip : Ipv4
  port : Nat

/-- The rightward-to-leftward walk over the reversed X-Forwarded-For
elements in `get_remote`: a parse failure aborts with BadRemoteAddr, a
loopback or trusted element is skipped, anything else is returned, and an
exhausted list means only proxies were listed. -/
def walkHosts (proxy_list : List IpNet) : List String → Except HandlerErrorKind String
  | [] => .error (.BadRemoteAddrError ("Only proxies specified"))
  | host_str :: rest =>
    match parseIpv4 (trimStr host_str) with
    | some addr =>
      if ¬ isLoopback addr ∧ ¬ is_trusted_proxy proxy_list addr then .ok (ipToString addr)
      else walkHosts proxy_list rest
    | none => .error (.BadRemoteAddrError ("Bad IP Specified"))

/-- `get_remote` (meta.rs): no peer fails; an untrusted peer is returned
verbatim; a trusted peer consults only X-Forwarded-For, reversed. The
header value is modelled as the already-UTF-8 string (`header.to_str()`
cannot fail on it). -/
def get_remote (peer : Option SocketAddr) (xff : Option String)
    (proxy_list : List IpNet) : Except HandlerErrorKind String :=
  match peer with
  | none => .error (.BadRemoteAddrError ("Peer is unspecified"))
  | some v =>
    let peer_ip := v.ip
    if ¬ is_trusted_proxy proxy_list peer_ip then .ok (ipToString peer_ip)
    else
      match xff with
      | some hstr => walkHosts proxy_list ((splitStr hstr (',')).reverse)
      | none =>
        .error (.BadRemoteAddrError ("No X-Forwarded-For found for proxied connection"))

/-- The trusted-proxy list built by `WsChannelSessionState::new`: the three
RFC1918 private networks followed by the configured entries. -/
def build_trusted_list (config : List IpNet) : List IpNet :=
  [⟨⟨10, 0, 0, 0⟩, 8⟩, ⟨⟨172, 16, 0, 0⟩, 12⟩, ⟨⟨192, 168, 0, 0⟩, 16⟩] ++ config

/-! ### Accept-Language parsing (meta.rs preferred_languages) -/

/-- `char::to_ascii_lowercase` applied to every character. -/
def asciiLower (s : String) : String :=
  String.mk (s.data.map (fun c =>
    if ('A') ≤ c ∧ c ≤ ('Z') then Char.ofNat (c.toNat + 32) else c))

/-- BTreeMap::insert on a list sorted by key: replace an equal key, keep
the order otherwise. -/
def btreeInsert : List (String × String) → String → String → List (String × String)
  | [], k, v => [(k, v)]
  | (k', v') :: t, k, v =>
    if strLt k k' then (k, v) :: (k', v') :: t
    else if k = k' then (k, v) :: t
    else (k', v') :: btreeInsert t k v

/-- The synthesized key `format!("q=1.{:02}", i)` for a tag without a
q parameter. -/
def qKey (i : Nat) : String :=
  "q=1." ++ (if i < 10 then "0" ++ toString i else toString i)

/-- One step of the `for_each` over the comma-separated header items. -/
def langStep (acc : List (String × String) × Nat) (l : String) :
    List (String × String) × Nat :=
  if l ≠ "-" then
    if l.data.any (fun c => c = (';')) then
      let weight := splitStr l (';')
      let lang := asciiLower (weight.getD 0 "")
      let pref := asciiLower (weight.getD 1 "")
      (btreeInsert acc.1 (trimStr pref) (trimStr lang), acc.2)
    else
      (btreeInsert acc.1 (qKey acc.2) (asciiLower l), acc.2 + 1)
  else acc

/-- `preferred_languages`: fill the BTreeMap, read its values in key order,
reverse, append the default language. -/
def preferred_languages (alheader : String) (default : String) : List String :=
  let tree := ((splitStr alheader (',')).foldl langStep ([], 0)).1
  (tree.map Prod.snd).reverse ++ [default]

/-! ### The heartbeat tick (session.rs WsChannelSession::hb) and the
constants of main.rs -/

/-- `const CLIENT_TIMEOUT: Duration = Duration::from_secs(10)` (main.rs). -/
def CLIENT_TIMEOUT : Nat := 10

/-- `const HEARTBEAT_INTERVAL: Duration = Duration::from_secs(5)` (main.rs). -/
def HEARTBEAT_INTERVAL : Nat := 5

/-- What one heartbeat tick does: which metric it emits, whether it sends
Disconnect(Timeout) and stops, or pings. -/
structure HbOutcome where
  metric : Option String
  disconnectReason : Option DisconnectReason
  stop : Bool
  ping : Bool
deriving DecidableEq

/-- One `run_interval` tick of `WsChannelSession::hb`, with instants in
seconds: both deadline checks measure `now - act.hb` (the last heartbeat),
the first against the hard-coded CLIENT_TIMEOUT, the second against
`act.expiry` (the configured conn_lifespan). `Instant::duration_since`
saturates at zero, as Nat subtraction does. -/
def hbTick (now hb expiry : Nat) : HbOutcome :=
  if now - hb > CLIENT_TIMEOUT then
    { metric := some ("conn.expired"), disconnectReason := some .Timeout,
      stop := true, ping := false }
  else if now - hb > expiry then
    { metric := some ("conn.timeout"), disconnectReason := some .Timeout,
      stop := true, ping := false }
  else
    { metric := none, disconnectReason := none, stop := false, ping := true }

/-! ### The WebSocket route (main.rs channel_route) -/

/-- What `channel_route` decides before starting the session actor: the
channel id the session will carry, its `initial_connection` flag, and the
tag attached to the `conn.request` metric — or a panic propagated from
`ChannelID::from_str`. -/
inductive RouteOutcome where
  | route (channel : ChannelID) (initial_connect : Bool) (tag : String)
  | panicked
deriving DecidableEq

/-- `channel_route`: pop the last `/`-separated path segment; an empty
segment means a fresh random channel (tag "new"); a segment that decodes is
the joined channel (tag "existing", `initial_connection = false`); a decode
error falls back to a fresh random channel with `initial_connection` still
true (tag "error"). `freshId` is the random `ChannelID::default()` drawn
for this request. -/
def channel_route (path : String) (freshId : ChannelID) : RouteOutcome :=
  match (splitStr path ('/')).getLast? with
  | some id =>
    if id = "" then .route freshId true ("new")
    else
      match from_str id with
      | .ok channelid => .route channelid false ("existing")
      | .err => .route freshId true ("error")
      | .panicked => .panicked
  | none => .route freshId true ("none")

/-! ### Spec-side formulations used to state the claims -/

/-- The heartbeat tick as the claim words it: a configurable
`client_timeout` for the idle check, and the lifespan check measured from
the session's creation instant. -/
def hbTickClaim (client_timeout conn_lifespan now hb created : Nat) : HbOutcome :=
  if now - hb > client_timeout then
    { metric := some ("conn.expired"), disconnectReason := some .Timeout,
      stop := true, ping := false }
  else if now - created > conn_lifespan then
    { metric := some ("conn.timeout"), disconnectReason := some .Timeout,
      stop := true, ping := false }
  else
    { metric := none, disconnectReason := none, stop := false, ping := true }

/-- The claim's reading of one X-Forwarded-For element: an element that is
a valid, non-loopback, untrusted IP is selected; anything else is skipped. -/
def goodIp (proxy_list : List IpNet) (host_str : String) : Option String :=
  match parseIpv4 (trimStr host_str) with
  | some addr =>
    if ¬ isLoopback addr ∧ ¬ is_trusted_proxy proxy_list addr then some (ipToString addr)
    else none
  | none => none

/-- `get_remote` as claim C1 words it: walking from the rightmost element
leftward, return the first element that is a valid IP, not loopback and
not trusted, and fail only when no such element exists. -/
def get_remote_claim (peer : Option SocketAddr) (xff : Option String)
    (proxy_list : List IpNet) : Except HandlerErrorKind String :=
  match peer with
  | none => .error (.BadRemoteAddrError ("Peer is unspecified"))
  | some v =>
    if ¬ is_trusted_proxy proxy_list v.ip then .ok (ipToString v.ip)
    else
      match xff with
      | some hstr =>
        match ((splitStr hstr (',')).reverse).findSome? (goodIp proxy_list) with
        | some ip => .ok ip
        | none => .error (.BadRemoteAddrError ("No valid client IP"))
      | none =>
        .error (.BadRemoteAddrError ("No X-Forwarded-For found for proxied connection"))

/-- The amended reading of one element: selection as in the claim, but a
parse failure is itself a decision — it aborts the walk with
BadRemoteAddr. -/
def hostDecision (proxy_list : List IpNet) (host_str : String) :
    Option (Except HandlerErrorKind String) :=
  match parseIpv4 (trimStr host_str) with
  | some addr =>
    if ¬ isLoopback addr ∧ ¬ is_trusted_proxy proxy_list addr then
      some (.ok (ipToString addr))
    else none
  | none => some (.error (.BadRemoteAddrError ("Bad IP Specified")))

/-- `get_remote` as amended: the walk returns the first decision — either
the first acceptable client IP or the BadRemoteAddr raised by the first
unparsable element — and an exhausted list means only proxies were
listed. -/
def get_remote_amended (peer : Option SocketAddr) (xff : Option String)
    (proxy_list : List IpNet) : Except HandlerErrorKind String :=
  match peer with
  | none => .error (.BadRemoteAddrError ("Peer is unspecified"))
  | some v =>
    if ¬ is_trusted_proxy proxy_list v.ip then .ok (ipToString v.ip)
    else
      match xff with
      | some hstr =>
        (((splitStr hstr (',')).reverse).findSome? (hostDecision proxy_list)).getD
          (.error (.BadRemoteAddrError ("Only proxies specified")))
      | none =>
        .error (.BadRemoteAddrError ("No X-Forwarded-For found for proxied connection"))

/-- The Connect handler's rejection condition, read off the amended claim:
unknown channel without the initial flag, a full channel (a fresh channel
is itself full when the capacity is zero), or a third-party join that fails
the reconnect check. -/
def connectRejects (st : Settings) (s : BrokerState) (a : ConnectArgs) : Bool :=
  match alistLookup s.channels a.channel with
  | none =>
    if ¬ a.initial_connect then true else decide (0 ≥ st.max_channel_connections)
  | some g =>
    decide (g.length ≥ st.max_channel_connections) ||
      (decide (g.length > 2) && ! reconnect_check g a.remote)

/-! ### The fan-out walk, reformulated the way the amended claim words it -/

/-- The byte-quota abort condition for one member: checked against the
member's pre-update running total and the just-arrived length. -/
def xsDataCond (st : Settings) (len : Nat) (p : Channel) : Bool :=
  decide (st.max_data > 0 ∧ (p.data_exchanged > st.max_data ∨ len > st.max_data))

/-- The counter update applied to one member (u8 and usize arithmetic). -/
def updParty (len : Nat) (p : Channel) : Channel :=
  { p with data_exchanged := (p.data_exchanged + len) % 2 ^ 64,
           msg_count := (p.msg_count + 1) % 256 }

/-- The message-quota abort condition, checked against the updated count. -/
def xsMsgCond (st : Settings) (len : Nat) (p : Channel) : Bool :=
  decide (st.max_exchanges > 0 ∧ (updParty len p).msg_count > st.max_exchanges)

/-- A member at which the walk aborts. -/
def abortCond (st : Settings) (len : Nat) (p : Channel) : Bool :=
  xsDataCond st len p || xsMsgCond st len p

/-- The frame delivered to one member (skipping the sender and members
whose delivery handle is gone). -/
def deliveryOf (sessions : List (Nat × Nat)) (message : String) (skip : Nat)
    (p : Nat × Channel) : List (Nat × TextMessage) :=
  if p.2.session_id ≠ skip then
    match alistLookup sessions p.2.session_id with
    | some addr => [(addr, (MessageType.Text, message))]
    | none => []
  else []

/-- The walk as the amended claim describes it: members strictly before the
first aborting one are fully updated and delivered to (sender excepted);
the aborting member itself is left untouched on a byte-quota abort but
already updated on a message-quota abort; members after it are untouched;
the emitted metric and error name the aborting member. -/
def sendLoopSpec (st : Settings) (sessions : List (Nat × Nat)) (message : String)
    (skip : Nat) (parties : List (Nat × Channel)) :
    List (Nat × Channel) × List String × List (Nat × TextMessage) × Option HandlerErrorKind :=
  let len := utf8Len message
  let ok := fun (q : Nat × Channel) => ! abortCond st len q.2
  let pre := parties.takeWhile ok
  let rest := parties.dropWhile ok
  (pre.map (fun q => (q.1, updParty len q.2)) ++
      (match rest with
       | [] => []
       | q :: t => (if xsDataCond st len q.2 then q else (q.1, updParty len q.2)) :: t),
   (match rest with
    | [] => []
    | q :: _ => if xsDataCond st len q.2 then ["conn.max.data"] else ["conn.max.msg"]),
   (pre.map (deliveryOf sessions message skip)).flatten,
   (match rest with
    | [] => none
    | q :: _ =>
      some (if xsDataCond st len q.2 then HandlerErrorKind.XSDataErr (q.2.remote.getD "")
            else HandlerErrorKind.XSMessageErr (q.2.remote.getD ""))))

/-- The code's fan-out walk computes exactly the claim-style split at the
first aborting member. -/
theorem sendLoop_eq (st : Settings) (sessions : List (Nat × Nat)) (message : String)
    (skip : Nat) (parties : List (Nat × Channel)) :
    sendLoop st sessions message skip parties =
      sendLoopSpec st sessions message skip parties := by
  induction parties with
  | nil => rfl
  | cons q rest ih =>
    obtain ⟨pid, party⟩ := q
    by_cases hd : st.max_data > 0 ∧
        (party.data_exchanged > st.max_data ∨ utf8Len message > st.max_data)
    · have hdc : xsDataCond st (utf8Len message) party = true := by
        simp [xsDataCond, hd]
      simp [sendLoop, sendLoopSpec, hd, hdc, abortCond, List.takeWhile_cons,
        List.dropWhile_cons]
    · have hdc : xsDataCond st (utf8Len message) party = false := by
        simp [xsDataCond]
        omega
      by_cases hm : st.max_exchanges > 0 ∧
          (party.msg_count + 1) % 256 > st.max_exchanges
      · have hmc : xsMsgCond st (utf8Len message) party = true := by
          simp [xsMsgCond, updParty, hm]
        simp [sendLoop, sendLoopSpec, hd, hm, hdc, hmc, abortCond, updParty,
          List.takeWhile_cons, List.dropWhile_cons]
      · have hmc : xsMsgCond st (utf8Len message) party = false := by
          simp only [xsMsgCond, updParty, decide_eq_false_iff_not]
          exact hm
        simp [sendLoop, sendLoopSpec, hd, hm, hdc, hmc, abortCond, updParty,
          List.takeWhile_cons, List.dropWhile_cons, deliveryOf, ih]

/-- The walk never changes the set or order of member session ids. -/
theorem sendLoop_keys (st : Settings) (sessions : List (Nat × Nat)) (message : String)
    (skip : Nat) (parties : List (Nat × Channel)) :
    alistKeys (sendLoop st sessions message skip parties).1 = alistKeys parties := by
  induction parties with
  | nil => rfl
  | cons q rest ih =>
    obtain ⟨pid, party⟩ := q
    by_cases hd : st.max_data > 0 ∧
        (party.data_exchanged > st.max_data ∨ utf8Len message > st.max_data)
    · simp [sendLoop, hd, alistKeys]
    · by_cases hm : st.max_exchanges > 0 ∧
          ((party.msg_count + 1) % 256) > st.max_exchanges
      · simp [sendLoop, hd, hm, alistKeys]
      · simp only [sendLoop, if_neg hd] at ih ⊢
        simp [hm, alistKeys] at ih ⊢
        exact ih

/-- Lookup after a remove. -/
theorem alistLookup_remove {α β : Type} [DecidableEq α] (l : List (α × β)) (id k : α) :
    alistLookup (alistRemove l id) k = if k = id then none else alistLookup l k := by
  induction l generalizing k with
  | nil => by_cases h : k = id <;> simp [alistRemove, h]
  | cons p t ih =>
    obtain ⟨a, b⟩ := p
    by_cases hp : a = id
    · subst hp
      rw [show alistRemove ((a, b) :: t) a = alistRemove t a from by simp [alistRemove]]
      rw [ih k]
      by_cases hk : k = a
      · simp [hk]
      · have hak : a ≠ k := fun h => hk h.symm
        simp [hk, hak]
    · rw [show alistRemove ((a, b) :: t) id = (a, b) :: alistRemove t id from by
        simp [alistRemove, hp]]
      rw [alistLookup_cons, ih k]
      by_cases hak : a = k
      · have hk : k ≠ id := fun h => hp (hak.trans h)
        simp [hak, hk]
      · simp [hak]

/-- Lookup through a value-map. -/
theorem alistLookup_map_value {α β γ : Type} [DecidableEq α] (f : β → γ)
    (l : List (α × β)) (k : α) :
    alistLookup (l.map (fun q => (q.1, f q.2))) k = (alistLookup l k).map f := by
  induction l with
  | nil => rfl
  | cons p t ih =>
    obtain ⟨a, b⟩ := p
    by_cases h : a = k <;> simp [h, ih]

/-- One shutdown step never touches the channels registry. -/
theorem terminateStep_channels (acc : BrokerState) (p : Nat × Channel) :
    (terminateStep acc p).channels = acc.channels := by
  unfold terminateStep
  cases alistLookup acc.sessions p.1 <;> rfl

/-- The shutdown loop never touches the channels registry. -/
theorem foldl_terminateStep_channels (parts : List (Nat × Channel)) (s : BrokerState) :
    (parts.foldl terminateStep s).channels = s.channels := by
  induction parts generalizing s with
  | nil => rfl
  | cons q t ih =>
    rw [List.foldl_cons, ih, terminateStep_channels]

/-- After a shutdown the channel is gone and every other channel is
untouched. -/
theorem shutdown_channels (s : BrokerState) (ch k : ChannelID) :
    alistLookup (shutdown s ch).channels k =
      if k = ch then none else alistLookup s.channels k := by
  unfold shutdown
  cases hch : alistLookup s.channels ch with
  | none => simp [alistLookup_remove]
  | some parts => simp [foldl_terminateStep_channels, alistLookup_remove]

/-- The member record of one session of one channel. -/
def memberLookup (s : BrokerState) (c : ChannelID) (sid : Nat) : Option Channel :=
  match alistLookup s.channels c with
  | none => none
  | some g => alistLookup g sid

/-- The two quota counters of one member. -/
def memberCounters (s : BrokerState) (c : ChannelID) (sid : Nat) : Option (Nat × Nat) :=
  (memberLookup s c sid).map (fun ch => (ch.msg_count, ch.data_exchanged))

/-- How often a metric was emitted. -/
def metricCount (s : BrokerState) (m : String) : Nat :=
  (s.metrics.filter (fun x => x = m)).length

/-- The notification phase of a disconnect only appends to the outbox. -/
theorem disconnectNotify_channels (s : BrokerState) (ch : ChannelID) (id : Nat) :
    (disconnectNotify s ch id).channels = s.channels := by
  unfold disconnectNotify
  cases hch : alistLookup s.channels ch with
  | none => rfl
  | some parts =>
    by_cases hany : parts.any (fun p => p.1 = id) = true
    · cases hsess : alistLookup s.sessions id <;> simp [hany, hsess]
    · simp [hany]

/-- The notification phase of a disconnect keeps the sessions registry. -/
theorem disconnectNotify_sessions (s : BrokerState) (ch : ChannelID) (id : Nat) :
    (disconnectNotify s ch id).sessions = s.sessions := by
  unfold disconnectNotify
  cases hch : alistLookup s.channels ch with
  | none => rfl
  | some parts =>
    by_cases hany : parts.any (fun p => p.1 = id) = true
    · cases hsess : alistLookup s.sessions id <;> simp [hany, hsess]
    · simp [hany]

/-- A member that survives a disconnect on its channel is unchanged. -/
theorem disconnect_member_eq (s : BrokerState) (ch : ChannelID) (id sid : Nat)
    (c c' : Channel)
    (h1 : memberLookup s ch sid = some c)
    (h2 : memberLookup (disconnect s ch id) ch sid = some c') : c' = c := by
  cases hch : alistLookup s.channels ch with
  | none => simp [memberLookup, hch] at h1
  | some g =>
    have hg : alistLookup g sid = some c := by simpa [memberLookup, hch] using h1
    unfold disconnect at h2
    dsimp only at h2
    rw [disconnectNotify_channels] at h2
    simp only [hch] at h2
    by_cases hemp : (alistRemove g id).isEmpty
    · rw [if_pos hemp] at h2
      simp [memberLookup, shutdown_channels] at h2
    · rw [if_neg hemp] at h2
      simp only [memberLookup, alistLookup_insert_self] at h2
      rw [alistLookup_remove] at h2
      by_cases hsid : sid = id
      · simp [hsid] at h2
      · rw [if_neg hsid, hg] at h2
        exact (Option.some.injEq _ _).mp h2.symm

/-- A concrete all-zero channel id. -/
def cidZ : ChannelID := ⟨List.replicate 16 0⟩

/-- A second concrete channel id. -/
def cid9 : ChannelID := ⟨List.replicate 16 9⟩

/-! ### The registry invariant (claim C4) -/

/-- One shutdown step removes exactly the member's key from the sessions
registry. -/
theorem terminateStep_sessions (acc : BrokerState) (p : Nat × Channel) :
    (terminateStep acc p).sessions = alistRemove acc.sessions p.1 := by
  unfold terminateStep
  cases alistLookup acc.sessions p.1 <;> rfl

/-- Session keys surviving the shutdown loop: those not keyed by a member. -/
theorem foldl_terminateStep_sessions (parts : List (Nat × Channel)) (s : BrokerState)
    (x : Nat) :
    x ∈ sessionKeys (parts.foldl terminateStep s) ↔
      x ∈ sessionKeys s ∧ x ∉ alistKeys parts := by
  induction parts generalizing s with
  | nil => simp
  | cons q t ih =>
    rw [List.foldl_cons, ih]
    simp only [sessionKeys, terminateStep_sessions, mem_keys_remove, alistKeys_cons,
      List.mem_cons]
    tauto

/-- The broker-registry invariant carried through the induction: every
channel member is registered in the sessions map, member ids only come
from already-consumed rng draws, two channel entries never share a member
id, and both registries have duplicate-free keys. -/
structure Inv (s : BrokerState) (seen : List Nat) : Prop where
  sess : ∀ p ∈ s.channels, ∀ q ∈ p.2, q.1 ∈ sessionKeys s
  seenMem : ∀ p ∈ s.channels, ∀ q ∈ p.2, q.1 ∈ seen
  disj : ∀ p ∈ s.channels, ∀ p' ∈ s.channels, ∀ x,
    x ∈ alistKeys p.2 → x ∈ alistKeys p'.2 → p = p'
  gnodup : ∀ p ∈ s.channels, (alistKeys p.2).Nodup
  cnodup : (alistKeys s.channels).Nodup

/-- Weakening the seen-set. -/
theorem Inv.mono {s : BrokerState} {seen seen' : List Nat} (h : Inv s seen)
    (hs : seen ⊆ seen') : Inv s seen' :=
  ⟨h.sess, fun p hp q hq => hs (h.seenMem p hp q hq), h.disj, h.gnodup, h.cnodup⟩

/-- The invariant survives a shutdown. -/
theorem shutdown_inv (s : BrokerState) (c : ChannelID) (seen : List Nat)
    (h : Inv s seen) : Inv (shutdown s c) seen := by
  unfold shutdown
  cases hch : alistLookup s.channels c with
  | none =>
    dsimp only
    refine ⟨?_, ?_, ?_, ?_, ?_⟩
    · intro p hp q hq
      exact h.sess p ((mem_alistRemove _ _ _).mp hp).1 q hq
    · intro p hp q hq
      exact h.seenMem p ((mem_alistRemove _ _ _).mp hp).1 q hq
    · intro p hp p' hp' x hx hx'
      exact h.disj p ((mem_alistRemove _ _ _).mp hp).1 p' ((mem_alistRemove _ _ _).mp hp').1
        x hx hx'
    · intro p hp
      exact h.gnodup p ((mem_alistRemove _ _ _).mp hp).1
    · exact nodup_keys_remove _ _ h.cnodup
  | some g =>
    dsimp only
    have hgm : (c, g) ∈ s.channels := alistLookup_some_mem _ _ _ hch
    have hchan := foldl_terminateStep_channels g s
    refine ⟨?_, ?_, ?_, ?_, ?_⟩
    · intro p hp q hq
      rw [mem_alistRemove, hchan] at hp
      have hq1 : q.1 ∈ sessionKeys s := h.sess p hp.1 q hq
      have hqk : q.1 ∈ alistKeys p.2 := (mem_alistKeys _ _).mpr ⟨q.2, by simpa using hq⟩
      have hng : q.1 ∉ alistKeys g := by
        intro hgk
        have := h.disj p hp.1 (c, g) hgm q.1 hqk hgk
        exact hp.2 (by rw [this])
      simp only [sessionKeys] at hq1 ⊢
      exact ((foldl_terminateStep_sessions g s q.1).mpr ⟨hq1, hng⟩)
    · intro p hp q hq
      rw [mem_alistRemove, hchan] at hp
      exact h.seenMem p hp.1 q hq
    · intro p hp p' hp' x hx hx'
      rw [mem_alistRemove, hchan] at hp hp'
      exact h.disj p hp.1 p' hp'.1 x hx hx'
    · intro p hp
      rw [mem_alistRemove, hchan] at hp
      exact h.gnodup p hp.1
    · rw [show ((g.foldl terminateStep s)).channels = s.channels from hchan]
      exact nodup_keys_remove _ _ h.cnodup

/-- The invariant survives the second stage of a Connect, given a fresh
rng draw that is already registered in the sessions map. -/
theorem stage2_inv (st : Settings) (s : BrokerState) (a : ConnectArgs) (rng : Nat)
    (ns : Channel) (seen : List Nat) (h : Inv s seen) (hfresh : rng ∉ seen)
    (hsess : rng ∈ sessionKeys s) :
    Inv (connectStage2 st s a rng ns).2 (seen ++ [rng]) := by
  have hmono : seen ⊆ seen ++ [rng] := List.subset_append_left seen [rng]
  unfold connectStage2
  cases hlk : alistLookup s.channels a.channel with
  | none => exact h.mono hmono
  | some g =>
    dsimp only
    by_cases hcap : g.length ≥ st.max_channel_connections
    · rw [if_pos hcap]
      dsimp only
      refine ⟨?_, fun p hp q hq => hmono (h.seenMem p hp q hq), h.disj, h.gnodup, h.cnodup⟩
      intro p hp q hq
      have hx := h.sess p hp q hq
      have hxs := h.seenMem p hp q hq
      have hne : q.1 ≠ rng := fun hh => hfresh (hh ▸ hxs)
      simp only [sessionKeys] at hx ⊢
      exact (mem_keys_remove _ _ _).mpr ⟨hx, hne⟩
    · rw [if_neg hcap]
      by_cases hrc : g.length > 2 ∧ ¬ reconnect_check g a.remote = true
      · rw [if_pos hrc]
        exact h.mono hmono
      · rw [if_neg hrc]
        dsimp only
        have hgmem : (a.channel, g) ∈ s.channels := alistLookup_some_mem _ _ _ hlk
        have hgseen : ∀ x ∈ alistKeys g, x ∈ seen := by
          intro x hx
          obtain ⟨b, hb⟩ := (mem_alistKeys g x).mp hx
          exact h.seenMem _ hgmem (x, b) hb
        have hrngg : rng ∉ alistKeys g := fun hh => hfresh (hgseen _ hh)
        have hkeys : alistKeys (alistInsert g rng ns) = alistKeys g ++ [rng] :=
          alistKeys_insert_not_mem g rng ns hrngg
        have hchkeys : a.channel ∈ alistKeys s.channels :=
          (mem_alistKeys _ _).mpr ⟨g, hgmem⟩
        have hentry : ∀ p, p ∈ alistInsert s.channels a.channel (alistInsert g rng ns) →
            p = (a.channel, alistInsert g rng ns) ∨ (p ∈ s.channels ∧ p.1 ≠ a.channel) :=
          fun p hp => mem_alistInsert_nodup _ _ _ p h.cnodup hp
        refine ⟨?_, ?_, ?_, ?_, ?_⟩
        · intro p hp q hq
          simp only [sessionKeys]
          rcases hentry p hp with he | he
          · rw [he] at hq
            rcases mem_alistInsert g rng ns q hq with h1 | h1
            · rw [h1]
              exact hsess
            · exact h.sess _ hgmem q h1
          · exact h.sess p he.1 q hq
        · intro p hp q hq
          rcases hentry p hp with he | he
          · rw [he] at hq
            rcases mem_alistInsert g rng ns q hq with h1 | h1
            · rw [h1]
              simp
            · exact hmono (h.seenMem _ hgmem q h1)
          · exact hmono (h.seenMem p he.1 q hq)
        · intro p hp p' hp' x hx hx'
          rcases hentry p hp with he | he <;> rcases hentry p' hp' with he' | he'
          · rw [he, he']
          · rw [he] at hx
            simp only at hx
            rcases (mem_keys_insert g rng ns x).mp hx with h1 | h1
            · have heq := h.disj _ hgmem p' he'.1 x h1 hx'
              exact absurd (congrArg Prod.fst heq).symm he'.2
            · subst h1
              obtain ⟨bb, hbb⟩ := (mem_alistKeys _ x).mp hx'
              exact absurd (h.seenMem p' he'.1 (x, bb) hbb) hfresh
          · rw [he'] at hx'
            simp only at hx'
            rcases (mem_keys_insert g rng ns x).mp hx' with h1 | h1
            · have heq := h.disj p he.1 _ hgmem x hx h1
              exact absurd (congrArg Prod.fst heq) he.2
            · subst h1
              obtain ⟨bb, hbb⟩ := (mem_alistKeys _ x).mp hx
              exact absurd (h.seenMem p he.1 (x, bb) hbb) hfresh
          · exact h.disj p he.1 p' he'.1 x hx hx'
        · intro p hp
          rcases hentry p hp with he | he
          · rw [he]
            simp only
            rw [hkeys]
            rw [List.nodup_append]
            exact ⟨h.gnodup _ hgmem, List.nodup_singleton rng,
              fun x hx hx2 => hrngg (by rwa [List.mem_singleton.mp hx2] at hx)⟩
          · exact h.gnodup p he.1
        · rw [show ({ s with
              channels := alistInsert s.channels a.channel (alistInsert g rng ns),
              outbox := s.outbox ++
                [(a.addr, (MessageType.Text, linkFrame a.channel))] } :
              BrokerState).channels =
            alistInsert s.channels a.channel (alistInsert g rng ns) from rfl]
          rw [alistKeys_insert_mem _ _ _ hchkeys]
          exact h.cnodup

/-- The invariant survives a Connect whose rng draw is fresh. -/
theorem connect_inv (st : Settings) (s : BrokerState) (a : ConnectArgs) (now rng : Nat)
    (seen : List Nat) (h : Inv s seen) (hfresh : rng ∉ seen) :
    Inv (connect st s a now rng).2 (seen ++ [rng]) := by
  have hmono : seen ⊆ seen ++ [rng] := List.subset_append_left seen [rng]
  have h1 : Inv { s with sessions := alistInsert s.sessions rng a.addr } seen := by
    refine ⟨?_, h.seenMem, h.disj, h.gnodup, h.cnodup⟩
    intro p hp q hq
    have := h.sess p hp q hq
    simp only [sessionKeys] at this ⊢
    exact (mem_keys_insert _ rng a.addr q.1).mpr (Or.inl this)
  have hsess1 : rng ∈ sessionKeys { s with sessions := alistInsert s.sessions rng a.addr } := by
    simp only [sessionKeys]
    exact (mem_keys_insert _ rng a.addr rng).mpr (Or.inr rfl)
  unfold connect
  dsimp only
  cases hlk : alistLookup s.channels a.channel with
  | some g => exact stage2_inv st _ a rng _ seen h1 hfresh hsess1
  | none =>
    by_cases hic : ¬ a.initial_connect
    · rw [if_pos hic]
      exact h1.mono hmono
    · rw [if_neg hic]
      have hnk : a.channel ∉ alistKeys s.channels := (alistLookup_eq_none_iff _ _).mp hlk
      have h2 : Inv { s with
          sessions := alistInsert s.sessions rng a.addr,
          channels := alistInsert s.channels a.channel [] } seen := by
        have hentry : ∀ p, p ∈ alistInsert s.channels a.channel ([] : List (Nat × Channel)) →
            p = (a.channel, ([] : List (Nat × Channel))) ∨
              (p ∈ s.channels ∧ p.1 ≠ a.channel) :=
          fun p hp => mem_alistInsert_nodup _ _ _ p h1.cnodup hp
        refine ⟨?_, ?_, ?_, ?_, ?_⟩
        · intro p hp q hq
          rcases hentry p hp with he | he
          · rw [he] at hq
            simp at hq
          · exact h1.sess p he.1 q hq
        · intro p hp q hq
          rcases hentry p hp with he | he
          · rw [he] at hq
            simp at hq
          · exact h1.seenMem p he.1 q hq
        · intro p hp p' hp' x hx hx'
          rcases hentry p hp with he | he
          · rw [he] at hx
            simp at hx
          · rcases hentry p' hp' with he' | he'
            · rw [he'] at hx'
              simp at hx'
            · exact h1.disj p he.1 p' he'.1 x hx hx'
        · intro p hp
          rcases hentry p hp with he | he
          · rw [he]
            simp
          · exact h1.gnodup p he.1
        · rw [show ({ s with
              sessions := alistInsert s.sessions rng a.addr,
              channels := alistInsert s.channels a.channel [] } : BrokerState).channels =
              alistInsert s.channels a.channel [] from rfl]
          rw [alistKeys_insert_not_mem _ _ _ hnk]
          rw [List.nodup_append]
          exact ⟨h.cnodup, List.nodup_singleton _,
            fun x hx hx2 => hnk (by rwa [List.mem_singleton.mp hx2] at hx)⟩
      have hsess2 : rng ∈ sessionKeys { s with
          sessions := alistInsert s.sessions rng a.addr,
          channels := alistInsert s.channels a.channel [] } := hsess1
      exact stage2_inv st _ a rng _ seen h2 hfresh hsess2

/-- The invariant survives a Disconnect. -/
theorem disconnect_inv (s : BrokerState) (c : ChannelID) (i : Nat) (seen : List Nat)
    (h : Inv s seen) : Inv (disconnect s c i) seen := by
  have hnc := disconnectNotify_channels s c i
  have hns := disconnectNotify_sessions s c i
  have h1 : Inv (disconnectNotify s c i) seen := by
    refine ⟨?_, ?_, ?_, ?_, ?_⟩
    · intro p hp q hq
      rw [hnc] at hp
      simp only [sessionKeys, hns]
      exact h.sess p hp q hq
    · intro p hp q hq
      rw [hnc] at hp
      exact h.seenMem p hp q hq
    · intro p hp p' hp' x hx hx'
      rw [hnc] at hp hp'
      exact h.disj p hp p' hp' x hx hx'
    · intro p hp
      rw [hnc] at hp
      exact h.gnodup p hp
    · rw [hnc]
      exact h.cnodup
  unfold disconnect
  dsimp only
  rw [hnc]
  cases hlk : alistLookup s.channels c with
  | none => exact h1
  | some g =>
    dsimp only
    have hgm : (c, g) ∈ s.channels := alistLookup_some_mem _ _ _ hlk
    have hchk : c ∈ alistKeys s.channels := (mem_alistKeys _ _).mpr ⟨g, hgm⟩
    have hentry : ∀ p, p ∈ alistInsert s.channels c (alistRemove g i) →
        p = (c, alistRemove g i) ∨ (p ∈ s.channels ∧ p.1 ≠ c) :=
      fun p hp => mem_alistInsert_nodup _ _ _ p h.cnodup hp
    have h2 : Inv { disconnectNotify s c i with
        channels := alistInsert s.channels c (alistRemove g i) } seen := by
      refine ⟨?_, ?_, ?_, ?_, ?_⟩
      · intro p hp q hq
        simp only [sessionKeys, hns]
        rcases hentry p hp with he | he
        · rw [he] at hq
          have hq' := (mem_alistRemove g i q).mp hq
          exact h.sess _ hgm q hq'.1
        · exact h.sess p he.1 q hq
      · intro p hp q hq
        rcases hentry p hp with he | he
        · rw [he] at hq
          exact h.seenMem _ hgm q ((mem_alistRemove g i q).mp hq).1
        · exact h.seenMem p he.1 q hq
      · intro p hp p' hp' x hx hx'
        rcases hentry p hp with he | he <;> rcases hentry p' hp' with he' | he'
        · rw [he, he']
        · rw [he] at hx
          simp only at hx
          have hxg : x ∈ alistKeys g := ((mem_keys_remove g i x).mp hx).1
          have heq := h.disj _ hgm p' he'.1 x hxg hx'
          exact absurd (congrArg Prod.fst heq).symm he'.2
        · rw [he'] at hx'
          simp only at hx'
          have hxg : x ∈ alistKeys g := ((mem_keys_remove g i x).mp hx').1
          have heq := h.disj p he.1 _ hgm x hx hxg
          exact absurd (congrArg Prod.fst heq) he.2
        · exact h.disj p he.1 p' he'.1 x hx hx'
      · intro p hp
        rcases hentry p hp with he | he
        · rw [he]
          exact nodup_keys_remove _ _ (h.gnodup _ hgm)
        · exact h.gnodup p he.1
      · rw [show ({ disconnectNotify s c i with
            channels := alistInsert s.channels c (alistRemove g i) } :
            BrokerState).channels = alistInsert s.channels c (alistRemove g i) from rfl]
        rw [alistKeys_insert_mem _ _ _ hchk]
        exact h.cnodup
    by_cases hemp : (alistRemove g i).isEmpty
    · rw [if_pos hemp]
      exact shutdown_inv _ _ _ h2
    · rw [if_neg hemp]
      exact h2

/-- The invariant survives a ClientMessage. -/
theorem clientMessage_inv (st : Settings) (s : BrokerState) (m : ClientMsgArgs)
    (seen : List Nat) (h : Inv s seen) : Inv (clientMessage st s m) seen := by
  unfold clientMessage
  cases m.message_type with
  | Terminate => exact disconnect_inv s m.channel m.id seen h
  | Text =>
    dsimp only
    unfold send_message
    cases hlk : alistLookup s.channels m.channel with
    | none => exact h
    | some parties =>
      dsimp only
      rcases hsl : sendLoop st s.sessions (wrapMessage m.msg m.sender) m.id parties with
        ⟨g', ms', outs', err'⟩
      dsimp only
      have hkeys : alistKeys g' = alistKeys parties := by
        have := sendLoop_keys st s.sessions (wrapMessage m.msg m.sender) m.id parties
        rw [hsl] at this
        exact this
      have hpm : (m.channel, parties) ∈ s.channels := alistLookup_some_mem _ _ _ hlk
      have hchk : m.channel ∈ alistKeys s.channels := (mem_alistKeys _ _).mpr ⟨parties, hpm⟩
      have hentry : ∀ p, p ∈ alistInsert s.channels m.channel g' →
          p = (m.channel, g') ∨ (p ∈ s.channels ∧ p.1 ≠ m.channel) :=
        fun p hp => mem_alistInsert_nodup _ _ _ p h.cnodup hp
      have h' : Inv
          ({ s with
             channels := alistInsert s.channels m.channel g',
             metrics := s.metrics ++ ms',
             outbox := s.outbox ++ outs' }) seen := by
        refine ⟨?_, ?_, ?_, ?_, ?_⟩
        · intro p hp q hq
          simp only [sessionKeys]
          rcases hentry p hp with he | he
          · rw [he] at hq
            have hqk : q.1 ∈ alistKeys parties := by
              rw [← hkeys]
              exact (mem_alistKeys _ _).mpr ⟨q.2, by simpa using hq⟩
            obtain ⟨b, hb⟩ := (mem_alistKeys _ _).mp hqk
            exact h.sess _ hpm (q.1, b) hb
          · exact h.sess p he.1 q hq
        · intro p hp q hq
          rcases hentry p hp with he | he
          · rw [he] at hq
            have hqk : q.1 ∈ alistKeys parties := by
              rw [← hkeys]
              exact (mem_alistKeys _ _).mpr ⟨q.2, by simpa using hq⟩
            obtain ⟨b, hb⟩ := (mem_alistKeys _ _).mp hqk
            exact h.seenMem _ hpm (q.1, b) hb
          · exact h.seenMem p he.1 q hq
        · intro p hp p' hp' x hx hx'
          rcases hentry p hp with he | he <;> rcases hentry p' hp' with he' | he'
          · rw [he, he']
          · rw [he] at hx
            simp only at hx
            rw [hkeys] at hx
            have heq := h.disj _ hpm p' he'.1 x hx hx'
            exact absurd (congrArg Prod.fst heq).symm he'.2
          · rw [he'] at hx'
            simp only at hx'
            rw [hkeys] at hx'
            have heq := h.disj p he.1 _ hpm x hx hx'
            exact absurd (congrArg Prod.fst heq) he.2
          · exact h.disj p he.1 p' he'.1 x hx hx'
        · intro p hp
          rcases hentry p hp with he | he
          · rw [he]
            simp only
            rw [hkeys]
            exact h.gnodup _ hpm
          · exact h.gnodup p he.1
        · rw [show ({ s with
                channels := alistInsert s.channels m.channel g',
                metrics := s.metrics ++ ms',
                outbox := s.outbox ++ outs' } :
              BrokerState).channels = alistInsert s.channels m.channel g' from rfl]
          rw [alistKeys_insert_mem _ _ _ hchk]
          exact h.cnodup
      cases err' with
      | none => exact h'
      | some e => exact shutdown_inv _ _ _ h'

/-- The rng draws consumed by the Connects of an op sequence, in order. -/
def connectIds : List Op → List Nat
  | [] => []
  | Op.connectOp _ _ rng :: t => rng :: connectIds t
  | Op.disconnectOp _ _ :: t => connectIds t
  | Op.clientMsg _ :: t => connectIds t

/-- The invariant carried through any op sequence whose Connect draws are
fresh. -/
theorem runOps_inv (st : Settings) : ∀ (ops : List Op) (s : BrokerState) (seen : List Nat),
    Inv s seen → List.Disjoint seen (connectIds ops) → (connectIds ops).Nodup →
    Inv (runOps st s ops) (seen ++ connectIds ops) := by
  intro ops
  induction ops with
  | nil =>
    intro s seen h _ _
    simpa [runOps, connectIds] using h
  | cons op rest ih =>
    intro s seen h hdisj hnodup
    have hrun : runOps st s (op :: rest) = runOps st (applyOp st s op) rest := rfl
    rw [hrun]
    cases op with
    | connectOp a now rng =>
      have hfresh : rng ∉ seen := fun hh => hdisj hh (by simp [connectIds])
      have hstep := connect_inv st s a now rng seen h hfresh
      have hdisj' : List.Disjoint (seen ++ [rng]) (connectIds rest) := by
        intro x hx hx'
        rcases List.mem_append.mp hx with hx1 | hx1
        · exact hdisj hx1 (by simp [connectIds, hx'])
        · rw [List.mem_singleton.mp hx1] at hx'
          have : ¬ rng ∈ connectIds rest := by
            have := hnodup
            simp [connectIds, List.nodup_cons] at this
            exact this.1
          exact this hx'
      have hnodup' : (connectIds rest).Nodup := by
        have := hnodup
        simp [connectIds, List.nodup_cons] at this
        exact this.2
      have := ih (connect st s a now rng).2 (seen ++ [rng]) hstep hdisj' hnodup'
      simpa [connectIds, List.append_assoc] using this
    | disconnectOp c i =>
      have hstep := disconnect_inv s c i seen h
      have := ih (disconnect s c i) seen hstep
        (by simpa [connectIds] using hdisj) (by simpa [connectIds] using hnodup)
      simpa [connectIds] using this
    | clientMsg m =>
      have hstep := clientMessage_inv st s m seen h
      have := ih (clientMessage st s m) seen hstep
        (by simpa [connectIds] using hdisj) (by simpa [connectIds] using hnodup)
      simpa [connectIds] using this

/-! ## The claims -/

/-- Claim C3: a Connect for an absent channel with `initial_connect = false`
returns 0 and leaves the channels registry without an entry for that id, so
any subsequent Connect to the same id with `initial_connect = false` is
rejected as well. -/
theorem claim_C3 (st : Settings) (s : BrokerState) (a : ConnectArgs) (now rng : Nat)
    (h1 : alistLookup s.channels a.channel = none)
    (h2 : a.initial_connect = false) :
    (connect st s a now rng).1 = 0 ∧
    (connect st s a now rng).2.channels = s.channels ∧
    ∀ (a2 : ConnectArgs) (now2 rng2 : Nat), a2.channel = a.channel →
      a2.initial_connect = false →
      (connect st (connect st s a now rng).2 a2 now2 rng2).1 = 0 := by
  have hc : (connect st s a now rng) =
      (0, { s with sessions := alistInsert s.sessions rng a.addr }) := by
    unfold connect
    simp [h1, h2]
  refine ⟨by rw [hc], by rw [hc], ?_⟩
  intro a2 now2 rng2 hch hini
  rw [hc]
  unfold connect
  simp [hch, h1, hini]

/-- Claim C3 witness: concrete instantiation on the empty broker. -/
theorem claim_C3_witness :
    (connect settingsDefault emptyBroker ⟨1, cidZ, none, false⟩ 0 7).1 = 0 ∧
    (connect settingsDefault emptyBroker ⟨1, cidZ, none, false⟩ 0 7).2.channels = [] :=
  ⟨(claim_C3 settingsDefault emptyBroker ⟨1, cidZ, none, false⟩ 0 7 rfl rfl).1,
   (claim_C3 settingsDefault emptyBroker ⟨1, cidZ, none, false⟩ 0 7 rfl rfl).2.1⟩

/-- Claim C5 counterexample: the handler never checks the drawn id, so a
Connect that is accepted — the member is inserted and the link frame is
pushed — returns 0 whenever the rng draw was 0, contradicting both the
"non-zero" and the "0 only on rejection" parts of the claim. -/
theorem claim_C5_counterexample :
    (connect settingsDefault emptyBroker ⟨1, cidZ, none, true⟩ 0 0).1 = 0 ∧
    alistLookup (connect settingsDefault emptyBroker ⟨1, cidZ, none, true⟩ 0 0).2.channels
        cidZ =
      some [(0, { session_id := 0, started := 0, msg_count := 0, data_exchanged := 0,
                  remote := none })] ∧
    (connect settingsDefault emptyBroker ⟨1, cidZ, none, true⟩ 0 0).2.outbox ≠ [] := by
  refine ⟨by decide, by decide, by decide⟩

/-- Claim C5 amended: the Connect handler returns the raw drawn usize on
every accepted connect — with no non-zero or uniqueness check — and 0 on
every rejection path. -/
theorem claim_C5_amended (st : Settings) (s : BrokerState) (a : ConnectArgs)
    (now rng : Nat) :
    (connect st s a now rng).1 = if connectRejects st s a then 0 else rng := by
  cases hl : alistLookup s.channels a.channel with
  | none =>
    by_cases hi : a.initial_connect
    · have hl2 : alistLookup
          (alistInsert s.channels a.channel ([] : List (Nat × Channel))) a.channel =
          some [] := alistLookup_insert_self _ _ _
      by_cases hcap : (0 : Nat) ≥ st.max_channel_connections
      · simp [connect, connectRejects, connectStage2, hl, hi, hl2, hcap]
      · simp [connect, connectRejects, connectStage2, hl, hi, hl2, hcap]
    · simp [connect, connectRejects, hl, hi]
  | some g =>
    by_cases hcap : g.length ≥ st.max_channel_connections
    · simp [connect, connectRejects, connectStage2, hl, hcap]
    · by_cases hbig : g.length > 2
      · by_cases hrc : reconnect_check g a.remote
        · simp [connect, connectRejects, connectStage2, hl, hcap, hbig, hrc]
        · simp [connect, connectRejects, connectStage2, hl, hcap, hbig, hrc]
      · simp [connect, connectRejects, connectStage2, hl, hcap, hbig]

/-- Claim C6 counterexample: the idle deadline in the code is the
hard-coded 10-second CLIENT_TIMEOUT of main.rs, not the configured
client_timeout (default 30), and the lifespan branch measures from the
last heartbeat, not from the session's creation. At 20 idle seconds the
code expires while the claim pings; at 1 idle second but 1000 seconds of
age the code pings while the claim times the session out. -/
theorem claim_C6_counterexample :
    hbTick 20 0 300 =
      { metric := some ("conn.expired"), disconnectReason := some .Timeout,
        stop := true, ping := false } ∧
    hbTickClaim 30 300 20 0 0 =
      { metric := none, disconnectReason := none, stop := false, ping := true } ∧
    hbTick 1000 999 300 =
      { metric := none, disconnectReason := none, stop := false, ping := true } ∧
    hbTickClaim 30 300 1000 999 0 =
      { metric := some ("conn.timeout"), disconnectReason := some .Timeout,
        stop := true, ping := false } := by
  refine ⟨by decide, by decide, by decide, by decide⟩

/-- Claim C6 amended: each tick behaves exactly as the claim's template
with the idle deadline fixed at the hard-coded 10-second constant and the
lifespan measured from the last heartbeat instead of the creation
instant. -/
theorem claim_C6_amended (now hb expiry : Nat) :
    hbTick now hb expiry = hbTickClaim CLIENT_TIMEOUT expiry now hb hb := by
  simp [hbTick, hbTickClaim]

/-- Claim C7 counterexample: a channelid segment that fails decoding is
not treated as a routing failure — the route falls back to a fresh random
channel id with `initial_connect = true` (so it does not arise only from
the bare path), and that flag makes the subsequent Connect create a brand
new channel for the client. -/
theorem claim_C7_counterexample :
    channel_route ("/v1/ws/bad!") cid9 = .route cid9 true ("error") ∧
    (alistLookup (connect settingsDefault emptyBroker ⟨1, cid9, none, true⟩ 0 3).2.channels
        cid9).isSome = true := by
  refine ⟨by decide, by decide⟩

/-- Claim C7 amended: a path whose final segment is nonempty and fails
ChannelID decoding is routed like a fresh-channel request: the session is
started on the freshly drawn random channel id with
`initial_connect = true` and the `conn.request` metric tagged "error". -/
theorem claim_C7_amended (path : String) (fid : ChannelID) (seg : String)
    (h1 : (splitStr path ('/')).getLast? = some seg)
    (h2 : seg ≠ "")
    (h3 : from_str seg = .err) :
    channel_route path fid = .route fid true ("error") := by
  simp [channel_route, h1, h2, h3]

/-- Claim C7 witness: the concrete bad segment. -/
theorem claim_C7_witness :
    channel_route ("/v1/ws/bad!") cidZ = .route cidZ true ("error") :=
  claim_C7_amended ("/v1/ws/bad!") cidZ ("bad!") (by decide) (by decide) (by decide)

/-- Claim C8: the code evaluated at the failing inputs. An input whose
base64 decode is shorter than 16 bytes panics in
`array.copy_from_slice(&bytes[..16])` instead of returning an error, and an
input whose decode is longer than 16 bytes is silently truncated to its
first 16 bytes; the unpadded 22-character form of a 16-byte id decodes
correctly and even trailing `=` padding is accepted. -/
theorem claim_C8_eval :
    from_str ("AAAA") = .panicked ∧
    from_str (String.mk (List.replicate 24 ('A'))) = .ok ⟨List.replicate 16 0⟩ ∧
    from_str ("j6jLPVPeQR6diyrkQinRAQ") =
      .ok ⟨[0x8f, 0xa8, 0xcb, 0x3d, 0x53, 0xde, 0x41, 0x1e,
            0x9d, 0x8b, 0x2a, 0xe4, 0x42, 0x29, 0xd1, 0x01]⟩ ∧
    from_str ("invalid") = .err := by
  refine ⟨by decide, by decide, by decide, by decide⟩

/-- Claim C9 counterexample: two tags that tie on q-value are not kept in
appearance order. Two tags without any q parameter (both q = 1.0 under the
claim) come out in reverse order of appearance, because the synthesized
BTreeMap keys q=1.00, q=1.01 … sort ascending and the value list is then
reversed; the claim instead forces ["aa", "bb", "en"]. -/
theorem claim_C9_counterexample :
    preferred_languages ("aa,bb") ("en") = ["bb", "aa", "en"] ∧
    (["bb", "aa", "en"] : List String) ≠ ["aa", "bb", "en"] := by
  refine ⟨by decide, by decide⟩

/-- Claim C9 amended: tags are ordered by descending lexicographic
comparison of their q-parameter strings, a repeated q string keeps only
the last tag, and unweighted tags (synthesized keys q=1.0i) sort above
explicit weights and among themselves in reverse appearance order; the two
vectors quoted by the claim hold, and the tie cases evaluate as stated. -/
theorem claim_C9_amended :
    preferred_languages ("en-US,es;q=0.1,en;q=0.5,*;q=0.2") ("en") =
      ["en-us", "en", "*", "es", "en"] ∧
    preferred_languages ("-") ("en") = ["en"] ∧
    preferred_languages ("a;q=0.5,b;q=0.5") ("en") = ["b", "en"] ∧
    preferred_languages ("aa,bb") ("en") = ["bb", "aa", "en"] := by
  refine ⟨by decide, by decide, by decide, by decide⟩

/-- The walk of `get_remote` returns the first decision produced by an
element of the reversed header list (acceptable client IP, or the abort on
an unparsable element), and the "Only proxies specified" error when no
element decides. -/
theorem walkHosts_eq (pl : List IpNet) (l : List String) :
    walkHosts pl l =
      (l.findSome? (hostDecision pl)).getD
        (.error (.BadRemoteAddrError ("Only proxies specified"))) := by
  induction l with
  | nil => simp [walkHosts, List.findSome?]
  | cons h t ih =>
    cases hp : parseIpv4 (trimStr h) with
    | some addr =>
      by_cases hl : isLoopback addr <;> by_cases ht : is_trusted_proxy pl addr <;>
        simp [walkHosts, List.findSome?, hostDecision, hp, hl, ht, ih]
    | none => simp [walkHosts, List.findSome?, hostDecision, hp]

/-- Claim C1 counterexample: with the RFC1918-augmented trusted list and a
trusted peer, the header `5.6.7.8, bogus, 192.168.0.10` makes the code fail
with BadRemoteAddr at the unparsable element `bogus`, while the claim's
walk skips it and demands `5.6.7.8` — the rightmost element that is a
valid, non-loopback, untrusted IP. -/
theorem claim_C1_counterexample :
    get_remote (some ⟨⟨192, 168, 0, 4⟩, 443⟩) (some ("5.6.7.8, bogus, 192.168.0.10"))
        (build_trusted_list []) =
      .error (.BadRemoteAddrError ("Bad IP Specified")) ∧
    get_remote_claim (some ⟨⟨192, 168, 0, 4⟩, 443⟩)
        (some ("5.6.7.8, bogus, 192.168.0.10")) (build_trusted_list []) =
      .ok ("5.6.7.8") := by
  refine ⟨by decide, by decide⟩

/-- Claim C1 amended: `get_remote` behaves as the claim states except that
the rightward-to-leftward walk aborts with BadRemoteAddr as soon as it
meets an element that does not parse as an IP, instead of skipping it:
missing peer fails, untrusted peer is returned verbatim ignoring headers,
and for a trusted peer the reversed comma-separated X-Forwarded-For list
is scanned for the first decision. -/
theorem claim_C1_amended (peer : Option SocketAddr) (xff : Option String)
    (pl : List IpNet) :
    get_remote peer xff pl = get_remote_amended peer xff pl := by
  cases peer with
  | none => rfl
  | some v =>
    by_cases ht : is_trusted_proxy pl v.ip
    · cases xff with
      | none => simp [get_remote, get_remote_amended, ht]
      | some hstr => simp [get_remote, get_remote_amended, ht, walkHosts_eq]
    · simp [get_remote, get_remote_amended, ht]

/-! ### Concrete broker scenarios for the quota claims -/

/-- Sender metadata of the first concrete member. -/
def sndA : SenderData := { remote := some ("1.1.1.1") }

/-- A channel-creating Connect for member 1. -/
def opConnA : Op := .connectOp ⟨1, cidZ, some ("1.1.1.1"), true⟩ 0 1

/-- A joining Connect for member 2. -/
def opConnB : Op := .connectOp ⟨2, cidZ, some ("2.2.2.2"), false⟩ 0 2

/-- A 16-byte text relayed by member 1 (wrapped length 60). -/
def opMsg16 : Op := .clientMsg ⟨1, .Text, "aaaaaaaaaaaaaaaa", cidZ, sndA⟩

/-- Settings with a 100-byte quota and no message quota. -/
def stData : Settings := { settingsDefault with max_data := 100, max_exchanges := 0 }

/-- Settings with a 3-message quota and no byte quota. -/
def stQuota : Settings := { settingsDefault with max_exchanges := 3 }

/-- Settings with both quotas disabled. -/
def stFree : Settings := { settingsDefault with max_exchanges := 0, max_data := 0 }

/-- A 1-byte text relayed by member 1 with empty sender metadata
(wrapped length 27). -/
def msgArgsX : ClientMsgArgs := ⟨1, .Text, "x", cidZ, {}⟩

/-- The corresponding broker request. -/
def opMsgX : Op := .clientMsg msgArgsX

/-- Claim C2 counterexample: with max_data = 100 and a wrapped payload of
60 bytes, the second relayed message raises the recipient's updated
data_exchanged to 120 > 100, yet the channel survives and conn.max.data is
not emitted — because the code checks the byte quota against the
pre-update total before adding the new length, while the claim demands an
abort as soon as the updated total exceeds max_data. -/
theorem claim_C2_counterexample :
    (alistLookup (runOps stData emptyBroker [opConnA, opConnB, opMsg16, opMsg16]).channels
        cidZ).isSome = true ∧
    memberCounters (runOps stData emptyBroker [opConnA, opConnB, opMsg16, opMsg16]) cidZ 2 =
      some (2, 120) ∧
    stData.max_data = 100 ∧
    metricCount (runOps stData emptyBroker [opConnA, opConnB, opMsg16, opMsg16])
      ("conn.max.data") = 0 ∧
    utf8Len (wrapMessage ("aaaaaaaaaaaaaaaa") sndA) = 60 := by
  refine ⟨by decide, by decide, by decide, by decide, by decide⟩

/-- Claim C2 amended: the fan-out walks the members in registry order
(the sender included); for each member it first aborts with XSData when
max_data > 0 and the member's pre-update data_exchanged or len(wrapped)
exceeds max_data, otherwise adds len(wrapped) to data_exchanged and
increments msg_count (u8), then aborts with XSMessage when
max_exchanges > 0 and the updated msg_count exceeds max_exchanges, and
otherwise delivers the wrapped payload to every member other than the
sender; an abort emits the matching metric once and the handler then shuts
the whole channel down. In particular with max_exchanges = 3 the fourth
relayed message terminates the channel and emits conn.max.msg exactly
once, while the third leaves the channel alive. -/
theorem claim_C2_amended :
    (∀ (st : Settings) (sessions : List (Nat × Nat)) (message : String) (skip : Nat)
        (parties : List (Nat × Channel)),
      sendLoop st sessions message skip parties =
        sendLoopSpec st sessions message skip parties) ∧
    (alistLookup
        (runOps stQuota emptyBroker [opConnA, opConnB, opMsg16, opMsg16, opMsg16]).channels
        cidZ).isSome = true ∧
    metricCount (runOps stQuota emptyBroker [opConnA, opConnB, opMsg16, opMsg16, opMsg16])
      ("conn.max.msg") = 0 ∧
    (runOps stQuota emptyBroker
      [opConnA, opConnB, opMsg16, opMsg16, opMsg16, opMsg16]).channels = [] ∧
    metricCount
      (runOps stQuota emptyBroker [opConnA, opConnB, opMsg16, opMsg16, opMsg16, opMsg16])
      ("conn.max.msg") = 1 := by
  refine ⟨sendLoop_eq, by decide, by decide, by decide, by decide⟩

set_option maxRecDepth 100000

/-- Claim C4 counterexample: a Connect for an unknown channel with
`initial_connect = false` inserts the fresh session id into the sessions
registry before the check and never removes it on that rejection path, so
the registry holds an id that is a member of no channel. -/
theorem claim_C4_counterexample :
    sessionKeys (runOps settingsDefault emptyBroker
      [Op.connectOp ⟨9, cidZ, none, false⟩ 0 5]) = [5] ∧
    (runOps settingsDefault emptyBroker
      [Op.connectOp ⟨9, cidZ, none, false⟩ 0 5]).channels = [] := by
  refine ⟨by decide, by decide⟩

/-- Claim C4 amended: after any sequence of broker operations from the
empty broker whose Connect rng draws are pairwise distinct, every session
id that is a member of some channel has an entry in the sessions registry,
and no id is a member under two different channel entries; the sessions
registry itself may retain orphan entries (rejected unknown-channel and
reconnect-check Connects, and disconnected members, are never removed from
it). -/
theorem claim_C4_amended (st : Settings) (ops : List Op)
    (h : (connectIds ops).Nodup) :
    (∀ p ∈ (runOps st emptyBroker ops).channels, ∀ q ∈ p.2,
      q.1 ∈ sessionKeys (runOps st emptyBroker ops)) ∧
    (∀ p ∈ (runOps st emptyBroker ops).channels,
      ∀ p' ∈ (runOps st emptyBroker ops).channels,
      ∀ x, x ∈ alistKeys p.2 → x ∈ alistKeys p'.2 → p = p') := by
  have hinv : Inv emptyBroker [] := by
    refine ⟨?_, ?_, ?_, ?_, ?_⟩ <;> simp [emptyBroker, alistKeys]
  have hrun := runOps_inv st ops emptyBroker [] hinv
    (by intro x hx; exact absurd hx (List.not_mem_nil x)) h
  exact ⟨hrun.sess, hrun.disj⟩

/-- Claim C4 witness: both members of a freshly paired channel are
registered sessions. -/
theorem claim_C4_witness :
    (1 : Nat) ∈ sessionKeys (runOps settingsDefault emptyBroker [opConnA, opConnB]) :=
  (claim_C4_amended settingsDefault [opConnA, opConnB] (by decide)).1
    (cidZ, [(1, { session_id := 1, started := 0, msg_count := 0, data_exchanged := 0,
                  remote := some ("1.1.1.1") }),
            (2, { session_id := 2, started := 0, msg_count := 0, data_exchanged := 0,
                  remote := some ("2.2.2.2") })])
    (by decide)
    (1, { session_id := 1, started := 0, msg_count := 0, data_exchanged := 0,
          remote := some ("1.1.1.1") })
    (by decide)

/-- Claim C10 counterexample: msg_count is a u8, so after 255 relayed
messages to a member the 256th wraps it from 255 back to 0 — the counter
decreases across a sequence of broker operations (max_exchanges = 0
disables the quota check, as the claim itself allows). -/
theorem claim_C10_counterexample :
    memberCounters (runOps stFree emptyBroker (opConnA :: List.replicate 255 opMsgX))
      cidZ 1 = some (255, 6885) ∧
    memberCounters (runOps stFree emptyBroker (opConnA :: List.replicate 256 opMsgX))
      cidZ 1 = some (0, 6912) ∧
    (0 : Nat) < 255 := by
  refine ⟨by decide, by decide, by decide⟩

/-- Claim C10 amended: during message relay the counters of a member that
survives the operation never decrease, provided its msg_count has not yet
reached 255 (the u8 wraps mod 256) and its byte total does not overflow
the usize; the byte quota is compared against the just-arrived wrapped
length and the pre-update running total. -/
theorem claim_C10_amended (st : Settings) (s : BrokerState) (m : ClientMsgArgs)
    (sid : Nat) (c c' : Channel)
    (h1 : memberLookup s m.channel sid = some c)
    (h2 : memberLookup (clientMessage st s m) m.channel sid = some c')
    (h3 : c.msg_count < 255)
    (h4 : c.data_exchanged + utf8Len (wrapMessage m.msg m.sender) < 2 ^ 64) :
    c.msg_count ≤ c'.msg_count ∧ c.data_exchanged ≤ c'.data_exchanged := by
  cases hch : alistLookup s.channels m.channel with
  | none => simp [memberLookup, hch] at h1
  | some g =>
    have hg : alistLookup g sid = some c := by simpa [memberLookup, hch] using h1
    cases hmt : m.message_type with
    | Terminate =>
      have hcc : c' = c := by
        simp only [clientMessage, hmt] at h2
        exact disconnect_member_eq s m.channel m.id sid c c' h1 h2
      rw [hcc]
      exact ⟨le_refl _, le_refl _⟩
    | Text =>
      have hspec := sendLoop_eq st s.sessions (wrapMessage m.msg m.sender) m.id g
      rcases hsl : sendLoop st s.sessions (wrapMessage m.msg m.sender) m.id g with
        ⟨g', ms', outs', err'⟩
      rw [hsl] at hspec
      simp only [clientMessage, hmt, send_message, hch, hsl] at h2
      cases err' with
      | some e =>
        have := shutdown_channels
          { s with channels := alistInsert s.channels m.channel g',
                   metrics := s.metrics ++ ms', outbox := s.outbox ++ outs' }
          m.channel m.channel
        simp [memberLookup, this] at h2
      | none =>
        have hdrop : g.dropWhile
            (fun (q : Nat × Channel) =>
              ! abortCond st (utf8Len (wrapMessage m.msg m.sender)) q.2) = [] := by
          rcases hd : g.dropWhile
              (fun (q : Nat × Channel) =>
                ! abortCond st (utf8Len (wrapMessage m.msg m.sender)) q.2) with _ | ⟨q, t⟩
          · rfl
          · simp [sendLoopSpec, hd] at hspec
        have htake : g.takeWhile
            (fun (q : Nat × Channel) =>
              ! abortCond st (utf8Len (wrapMessage m.msg m.sender)) q.2) = g := by
          have := List.takeWhile_append_dropWhile
            (p := fun (q : Nat × Channel) =>
              ! abortCond st (utf8Len (wrapMessage m.msg m.sender)) q.2) (l := g)
          rw [hdrop, List.append_nil] at this
          exact this
        have hg' : g' = g.map
            (fun q => (q.1, updParty (utf8Len (wrapMessage m.msg m.sender)) q.2)) := by
          simp [sendLoopSpec, hdrop, htake] at hspec
          exact hspec.1
        have hc' : c' = updParty (utf8Len (wrapMessage m.msg m.sender)) c := by
          simp only [memberLookup, alistLookup_insert_self] at h2
          rw [hg', alistLookup_map_value, hg] at h2
          exact (Option.some.injEq _ _).mp h2.symm
        rw [hc']
        unfold updParty
        constructor
        · simp only
          rw [Nat.mod_eq_of_lt (by omega)]
          omega
        · simp only
          rw [Nat.mod_eq_of_lt h4]
          omega

/-- Claim C10 witness: a concrete single relay on a one-member channel. -/
theorem claim_C10_witness :
    ({ session_id := 1, started := 0, msg_count := 0, data_exchanged := 0,
       remote := some ("1.1.1.1") } : Channel).msg_count ≤
      ({ session_id := 1, started := 0, msg_count := 1, data_exchanged := 27,
         remote := some ("1.1.1.1") } : Channel).msg_count ∧
    ({ session_id := 1, started := 0, msg_count := 0, data_exchanged := 0,
       remote := some ("1.1.1.1") } : Channel).data_exchanged ≤
      ({ session_id := 1, started := 0, msg_count := 1, data_exchanged := 27,
         remote := some ("1.1.1.1") } : Channel).data_exchanged :=
  claim_C10_amended stFree (runOps stFree emptyBroker [opConnA]) msgArgsX 1
    { session_id := 1, started := 0, msg_count := 0, data_exchanged := 0,
      remote := some ("1.1.1.1") }
    { session_id := 1, started := 0, msg_count := 1, data_exchanged := 27,
      remote := some ("1.1.1.1") }
    (by decide) (by decide) (by decide) (by decide)

end Chsrv
